import Mathlib

/-!
A shallow embedding of the fleet-workspace agent runtime: the inventory
mutation logic (`InventoryService.processStockUpdate`), the agent state
persistence (`BaseFleetManager.saveState` / `loadStateFromStorage`), the
child-agent operations (`InventoryAgent.createAgent` / `deleteAgent` /
`handleDeleteSubtree`), the chat statistics counters
(`InventoryAgent.updateChatStats` / `saveChatStatistics`), and the
router's tenant/path derivation (the `app.all` route handler).

JS strings are modelled as Lean `String` (or `List Char` where the code
does character-level splitting); JS `Map` and `Set` are modelled as
insertion-ordered association lists, matching JS iteration order; the SQL
tables touched by the modelled operations are modelled as row lists with
`INSERT OR REPLACE` upsert semantics keyed on the primary key.
-/

namespace Fleet

/-! ## JS string helpers -/

/-- The whitespace characters matched by the JS regex class `\s` and
removed by `String.prototype.trim` (ECMA-262 WhiteSpace + LineTerminator). -/
def isJsWhitespace (c : Char) : Bool :=
  c = ' ' || c = '\t' || c = '\n' || c = '\x0b' || c = '\x0c' || c = '\r' ||
  c = '\u00A0' || c = '\u1680' ||
  ('\u2000' ≤ c && c ≤ '\u200A') ||
  c = '\u2028' || c = '\u2029' || c = '\u202F' || c = '\u205F' ||
  c = '\u3000' || c = '\uFEFF'

/-- JS `String.prototype.trim`: drop leading and trailing whitespace. -/
def jsTrim (s : String) : String :=
  ⟨((s.data.dropWhile isJsWhitespace).reverse.dropWhile isJsWhitespace).reverse⟩

/-! ## Inventory data model (base-fleet-manager.ts) -/

/-- `InventoryItem` from base-fleet-manager.ts.  Stock levels are JS
numbers holding integers; modelled as `Int` (non-negativity is proved,
not assumed). -/
structure InventoryItem where
  sku : String
  name : String
  currentStock : Int
  lowStockThreshold : Int
  lastUpdated : String
  deriving DecidableEq, Repr

/-- The `operation` field of a stock update. -/
inductive StockOp where
  | set
  | increment
  | decrement
  deriving DecidableEq, Repr

/-- `InventoryUpdate` (sku/quantity/operation; timestamp and location are
supplied by the agent wrapper and are passed separately below). -/
structure InventoryUpdate where
  sku : String
  quantity : Int
  operation : StockOp
  deriving DecidableEq, Repr

/-- The in-memory inventory: a JS `Map` from SKU to item, modelled as an
insertion-ordered association list. -/
abbrev Inventory := List (String × InventoryItem)

/-- JS `Map.prototype.get`: the value at the first matching key. -/
def Inventory.get (inv : Inventory) (sku : String) : Option InventoryItem :=
  match inv with
  | [] => none
  | (k, v) :: rest => if k = sku then some v else Inventory.get rest sku

/-- JS `Map.prototype.set`: replace the value in place if the key is
present, otherwise append at the end (JS Maps keep insertion order). -/
def Inventory.setItem (inv : Inventory) (sku : String) (item : InventoryItem) : Inventory :=
  match inv with
  | [] => [(sku, item)]
  | (k, v) :: rest =>
      if k = sku then (k, item) :: rest
      else (k, v) :: Inventory.setItem rest sku item

/-- The stock level the code effectively sees for a SKU: the stored
`currentStock`, or `0` for a SKU not in the map (a fresh default item is
created with `currentStock: 0`). -/
def stockOf (inv : Inventory) (sku : String) : Int :=
  match inv.get sku with
  | some item => item.currentStock
  | none => 0

/-! ## Stock update processing (InventoryService.processStockUpdate) -/

/-- A row of the `inventory_transactions` table. -/
structure Transaction where
  sku : String
  operation : StockOp
  quantity : Int
  location : String
  timestamp : String
  deriving DecidableEq, Repr

/-- Frames sent through `broadcastCallback` / `broadcastToWebSockets`.
Only the frames emitted by the modelled operations appear. -/
inductive Frame where
  | state (counter : Nat) (agents : List String)
  | agentCreated (name : String)
  | agentDeleted (name : String)
  | errorFrame (message : String)
  | message (fromAgent content : String)
  | lowStockAlert (sku : String) (currentStock threshold : Int) (location : String)
  | stockUpdate (sku : String) (quantity : Int)
  deriving DecidableEq, Repr

/-- Result of one `processStockUpdate` call: the new inventory map, the
`inventory_transactions` rows, and the frames broadcast by the function
itself.  (The AI-driven side effects of `processLowStockAlert` — model
calls, reorder workflows — go through external bindings and are not
modelled; the deterministic `lowStockAlert` and `stockUpdate` frames
emitted directly by `processStockUpdate` are.) -/
structure StockResult where
  inventory : Inventory
  transactions : List Transaction
  broadcasts : List Frame
  deriving DecidableEq, Repr

/-- `InventoryService.processStockUpdate` (src/unnamed/part_000):
get-or-create the item (defaults: name `Product <sku>`, stock 0,
threshold 10), apply the operation (decrement clamps at 0 via
`Math.max`), write the item back, append one transaction row, emit a
`lowStockAlert` frame when `currentStock ≤ lowStockThreshold`, and
always emit a trailing `stockUpdate` frame carrying the new stock. -/
def processStockUpdate (update : InventoryUpdate) (location now : String)
    (inv : Inventory) (txs : List Transaction) : StockResult :=
  let item :=
    match inv.get update.sku with
    | some it => it
    | none =>
        { sku := update.sku
          name := "Product " ++ update.sku
          currentStock := 0
          lowStockThreshold := 10
          lastUpdated := now }
  let newStock :=
    match update.operation with
    | .set => update.quantity
    | .increment => item.currentStock + update.quantity
    | .decrement => max 0 (item.currentStock - update.quantity)
  let item' := { item with currentStock := newStock, lastUpdated := now }
  let inv' := inv.setItem update.sku item'
  let txs' := txs ++ [⟨update.sku, update.operation, update.quantity, location, now⟩]
  let alertFrames :=
    if item'.currentStock ≤ item'.lowStockThreshold then
      [Frame.lowStockAlert update.sku item'.currentStock item'.lowStockThreshold location]
    else []
  ⟨inv', txs', alertFrames ++ [Frame.stockUpdate update.sku item'.currentStock]⟩

/-- A sequence of stock updates applied in order (as by repeated client
requests or `processInventorySync`). -/
def processSeq (updates : List InventoryUpdate) (location now : String)
    (inv : Inventory) (txs : List Transaction) : StockResult :=
  updates.foldl
    (fun r u => processStockUpdate u location now r.inventory r.transactions)
    ⟨inv, txs, []⟩

/-- All stock levels in an inventory map are non-negative. -/
def InvNonneg (inv : Inventory) : Prop :=
  ∀ p ∈ inv, 0 ≤ p.2.currentStock

/-! ## Agent state and the SQL store (base-fleet-manager.ts) -/

/-- The `agent_type` enum. -/
inductive AgentType where
  | orchestrator
  | warehouse
  | retail
  | fulfillment
  deriving DecidableEq, Repr

/-- The in-memory `FleetState` of one agent instance.  `agents` is the
JS `Set` of child segments (insertion-ordered, duplicate-free by the Set
discipline); `websockets` stands for the set of live subscription
handles; `messages` is the in-memory message ring. -/
structure FleetState where
  counter : Nat
  agents : List String
  websockets : List Nat
  messages : List String
  inventory : Inventory
  agentType : AgentType
  deriving DecidableEq, Repr

/-- The state set up by the `BaseFleetManager` constructor for a fresh
agent instance. -/
def initialState : FleetState :=
  { counter := 0, agents := [], websockets := [], messages := [],
    inventory := [], agentType := .orchestrator }

/-- A row of the `fleet_state` table (primary key: the path id).  The
`agents` JSON column round-trips a string array verbatim, so it is
modelled as the list itself. -/
structure FleetRow where
  counter : Nat
  agents : List String
  agentType : AgentType
  deriving DecidableEq, Repr

/-- A row of the `inventory_items` table (primary key: `sku`). -/
structure InvRow where
  sku : String
  name : String
  currentStock : Int
  threshold : Int
  location : String
  deriving DecidableEq, Repr

/-- The slice of the embedded SQL store the modelled operations touch. -/
structure Store where
  fleetRows : List (String × FleetRow)
  inventoryRows : List InvRow
  transactions : List Transaction
  deriving DecidableEq, Repr

/-- The store before any write. -/
def emptyStore : Store := ⟨[], [], []⟩

/-- `INSERT OR REPLACE` into `fleet_state`, keyed on the `id` column. -/
def upsertFleetRow (rows : List (String × FleetRow)) (id : String) (row : FleetRow) :
    List (String × FleetRow) :=
  match rows with
  | [] => [(id, row)]
  | (k, v) :: rest =>
      if k = id then (k, row) :: rest
      else (k, v) :: upsertFleetRow rest id row

/-- `SELECT * FROM fleet_state WHERE id = ?` (first matching row). -/
def lookupFleetRow (rows : List (String × FleetRow)) (id : String) : Option FleetRow :=
  match rows with
  | [] => none
  | (k, v) :: rest => if k = id then some v else lookupFleetRow rest id

/-- `INSERT OR REPLACE` into `inventory_items`, keyed on the `sku`
primary key. -/
def upsertInvRow (rows : List InvRow) (row : InvRow) : List InvRow :=
  match rows with
  | [] => [row]
  | r :: rest =>
      if r.sku = row.sku then row :: rest
      else r :: upsertInvRow rest row

/-- `BaseFleetManager.saveState`: upsert the `fleet_state` row for the
current path (counter, children JSON, agent type) and upsert one
`inventory_items` row per in-memory item, in map iteration order.  The
item's `lastUpdated` field is not persisted (the table has only
`created_at`/`updated_at` timestamps). -/
def toInvRow (path : String) (p : String × InventoryItem) : InvRow :=
  ⟨p.2.sku, p.2.name, p.2.currentStock, p.2.lowStockThreshold, path⟩

def saveState (path : String) (st : FleetState) (store : Store) : Store :=
  { store with
    fleetRows := upsertFleetRow store.fleetRows path ⟨st.counter, st.agents, st.agentType⟩
    inventoryRows :=
      st.inventory.foldl (fun rows p => upsertInvRow rows (toInvRow path p))
        store.inventoryRows }

/-- The in-memory item built from an `inventory_items` row during load:
every field from the row except `lastUpdated`, which is stamped with the
load time (`new Date().toISOString()`), since it is not a column. -/
def loadedItem (loadTime : String) (r : InvRow) : InventoryItem :=
  ⟨r.sku, r.name, r.currentStock, r.threshold, loadTime⟩

/-- `BaseFleetManager.loadStateFromStorage` run in a fresh agent
instance (the constructor state, then the load under
`blockConcurrencyWhile`): read the `fleet_state` row for the path
(defaults when absent), then read every `inventory_items` row whose
`location` equals the path into the (empty) inventory map, stamping each
loaded item's `lastUpdated` with the current time of the load. -/
def loadStateFromStorage (path : String) (store : Store) (loadTime : String) : FleetState :=
  let base := initialState
  let st1 :=
    match lookupFleetRow store.fleetRows path with
    | some row => { base with counter := row.counter, agents := row.agents,
                              agentType := row.agentType }
    | none => base
  let rows := store.inventoryRows.filter (fun r => r.location = path)
  { st1 with
    inventory :=
      rows.foldl (fun inv r => inv.setItem r.sku (loadedItem loadTime r)) [] }

/-! ## Child agent operations (InventoryAgent, src/unnamed/part_003) -/

/-- The `AgentNameSchema` zod validator from base-fleet-manager.ts:
`z.string().min(1).max(32).regex(/^[a-zA-Z0-9\s_-]+$/)`.  Note the JS
regex class is alphanumerics, `\s` (any whitespace), underscore and
dash. -/
def validAgentName (s : String) : Bool :=
  1 ≤ s.length && s.length ≤ 32 &&
    s.data.all (fun c => c.isAlpha || c.isDigit || isJsWhitespace c || c = '_' || c = '-')

/-- The name rule as written in the spec: characters drawn from
`A-Za-z0-9`, space, underscore, dash; length between 1 and 32.  Stated
from the spec's words for comparison with `validAgentName`. -/
def specAgentNameOk (s : String) : Bool :=
  1 ≤ s.length && s.length ≤ 32 &&
    s.data.all (fun c => c.isAlpha || c.isDigit || c = ' ' || c = '_' || c = '-')

/-- Result of a child operation: the agent state and store after the
call, the frames broadcast to subscribers, and the `InventoryError`
(code, HTTP status) raised inside the call, if any. -/
structure AgentResult where
  state : FleetState
  store : Store
  frames : List Frame
  err : Option (String × Nat)
  deriving DecidableEq, Repr

/-- `InventoryAgent.createAgent`: trim the name, validate it with
`AgentNameSchema` (`VALIDATION_ERROR`, 400, broadcast as an error frame
with message `Invalid input`), reject an existing member with
`AGENT_EXISTS` (409, broadcast as an error frame), else add the segment
to the children set, persist, and broadcast `agentCreated` plus the new
state. -/
def createAgent (path name : String) (st : FleetState) (store : Store) : AgentResult :=
  let trimmed := jsTrim name
  if ¬ validAgentName trimmed then
    ⟨st, store, [.errorFrame "Invalid input"], some ("VALIDATION_ERROR", 400)⟩
  else if trimmed ∈ st.agents then
    ⟨st, store, [.errorFrame ("Agent \"" ++ trimmed ++ "\" already exists")],
      some ("AGENT_EXISTS", 409)⟩
  else
    let st' := { st with agents := st.agents ++ [trimmed] }
    ⟨st', saveState path st' store,
      [.agentCreated trimmed, .state st'.counter st'.agents], none⟩

/-- `InventoryAgent.deleteAgent`, with the outcome of the cascading
`delete-subtree` RPC to the child passed in as `rpcFails`.  A missing
segment only broadcasts an error frame.  Otherwise the segment is
removed from the local children set and the state persisted whether or
not the RPC failed; on failure the catch branch broadcasts a system
notice instead of `agentDeleted`. -/
def deleteAgent (path name : String) (rpcFails : Bool) (st : FleetState) (store : Store) :
    AgentResult :=
  if name ∉ st.agents then
    ⟨st, store, [.errorFrame ("Agent \"" ++ name ++ "\" does not exist")], none⟩
  else
    let st' := { st with agents := st.agents.erase name }
    let store' := saveState path st' store
    if rpcFails then
      ⟨st', store',
        [.message "system" ("Deleted " ++ name ++ " (cascade may have failed)"),
         .state st'.counter st'.agents], none⟩
    else
      ⟨st', store', [.agentDeleted name, .state st'.counter st'.agents], none⟩

/-- `InventoryAgent.handleDeleteSubtree`, local effect (the recursive
RPCs to the children run on the children's own state; per-child failures
are swallowed by `Promise.allSettled`): clear the children set, the
counter and the message ring — the inventory map is left untouched —
persist via `saveState`, then close and clear all subscriptions. -/
def handleDeleteSubtree (path : String) (st : FleetState) (store : Store) :
    FleetState × Store :=
  let st' := { st with agents := [], counter := 0, messages := [] }
  let store' := saveState path st' store
  ({ st' with websockets := [] }, store')

/-! ## Chat statistics (InventoryAgent.updateChatStats / saveChatStatistics) -/

/-- The in-memory `chatStats` counters.  `successRate` is a JS number;
the division is exact here (modelled over `ℚ`). -/
structure ChatStats where
  messagesToday : Nat
  actionsExecuted : Nat
  successfulActions : Nat
  successRate : ℚ
  deriving DecidableEq, Repr

/-- The `type` argument of `updateChatStats`. -/
inductive StatEvent where
  | message
  | action
  | success
  | failure
  deriving DecidableEq, Repr

/-- The rate computation at the top of
`InventoryAgent.saveChatStatistics`, run on every save:
`successfulActions / actionsExecuted * 100` when any action was
executed, else `0`. -/
def recomputeRate (s : ChatStats) : ChatStats :=
  { s with
    successRate :=
      if 0 < s.actionsExecuted then
        (s.successfulActions : ℚ) / (s.actionsExecuted : ℚ) * 100
      else 0 }

/-- `InventoryAgent.updateChatStats`: bump the counter selected by the
event (`failure` bumps nothing — the action was already counted), then
save, which recomputes the rate. -/
def updateChatStats (e : StatEvent) (s : ChatStats) : ChatStats :=
  match e with
  | .message => recomputeRate { s with messagesToday := s.messagesToday + 1 }
  | .action => recomputeRate { s with actionsExecuted := s.actionsExecuted + 1 }
  | .success => recomputeRate { s with successfulActions := s.successfulActions + 1 }
  | .failure => recomputeRate s

/-- The ways the agent code drives `updateChatStats`: an incoming chat
message (`processChatMessage`), or one iteration of the
`executeChatActions` loop, which records `action`, runs the action, then
records `success` on normal completion or `failure` on an exception. -/
inductive ChatEvent where
  | message
  | actions (outcomes : List Bool)
  deriving DecidableEq, Repr

/-- Run one chat event against the counters. -/
def runChatEvent (e : ChatEvent) (s : ChatStats) : ChatStats :=
  match e with
  | .message => updateChatStats .message s
  | .actions outcomes =>
      outcomes.foldl
        (fun st ok =>
          let st1 := updateChatStats .action st
          if ok then updateChatStats .success st1 else updateChatStats .failure st1)
        s

/-- The counters after a sequence of chat events, starting from the
zeroed constructor state. -/
def runChat (evs : List ChatEvent) : ChatStats :=
  evs.foldl (fun s e => runChatEvent e s) ⟨0, 0, 0, 0⟩

/-- A chat-stats state the agent code can actually be in. -/
def ChatReachable (s : ChatStats) : Prop :=
  ∃ evs, runChat evs = s

/-- The invariant maintained by the chat-stats code: successes never
outnumber executed actions, and the stored rate is the one
`saveChatStatistics` computes from the counters. -/
def statsInv (s : ChatStats) : Prop :=
  s.successfulActions ≤ s.actionsExecuted ∧
  s.successRate =
    (if 0 < s.actionsExecuted then
      (s.successfulActions : ℚ) / (s.actionsExecuted : ℚ) * 100
    else 0)

/-! ## Router tenant/path derivation (src/unnamed/part_002, app.all route) -/

/-- JS `String.prototype.split` with a single-character separator:
splits at every occurrence, keeping empty pieces. -/
def splitChar (sep : Char) : List Char → List (List Char)
  | [] => [[]]
  | c :: rest =>
      if c = sep then [] :: splitChar sep rest
      else
        match splitChar sep rest with
        | [] => [[c]]
        | g :: gs => (c :: g) :: gs

/-- `path.split('/').filter(Boolean)`: the non-empty pieces. -/
def splitNE (sep : Char) (s : List Char) : List (List Char) :=
  (splitChar sep s).filter (fun g => g ≠ [])

/-- `'/' + parts.join('/')`. -/
def slashJoin (parts : List (List Char)) : List Char :=
  '/' :: List.intercalate ['/'] parts

/-- The subdomain test of the route handler: the host has at least three
dot-separated labels and the leftmost is not `www`. -/
def isSubdomainHost (host : List Char) : Bool :=
  let hostParts := splitChar '.' host
  decide (3 ≤ hostParts.length) && decide (hostParts.headI ≠ "www".data)

/-- Tenant and tenant-relative path derivation of the `app.all('/*')`
handler.  Returns the `tenantId` as set by the branches (`none` when no
branch assigned one) and the `tenantPath`.  Branch order as in the code:
subdomain host keeps the raw URL path; a `/tenant/<id>/...` prefix with
at least two non-empty segments consumes two segments; otherwise the
first non-empty segment is the tenant. -/
def deriveTenant (host path : List Char) : Option (List Char) × List Char :=
  if isSubdomainHost host then
    ((splitChar '.' host).headI, path)
  else if "/tenant/".data.isPrefixOf path then
    let pathParts := splitNE '/' path
    if 2 ≤ pathParts.length then
      (pathParts.get? 1, slashJoin (pathParts.drop 2))
    else (none, path)
  else
    let pathParts := splitNE '/' path
    if 1 ≤ pathParts.length then
      (pathParts.get? 0, slashJoin (pathParts.drop 1))
    else (none, path)

/-- `if (!tenantId) tenantId = 'demo'` — JS falsiness also catches the
empty string. -/
def finalTenant (t : Option (List Char)) : List Char :=
  match t with
  | none => "demo".data
  | some s => if s = [] then "demo".data else s

/-- The known API endpoint suffixes, in the order the handler scans
them. -/
def apiEndpoints : List (List Char) :=
  ["/messages".data, "/state".data, "/increment".data, "/delete-subtree".data,
   "/message".data, "/inventory/stock".data, "/inventory/query".data,
   "/inventory/sync".data, "/inventory/alerts".data, "/ai/analyze".data,
   "/ai/forecast".data, "/ai/insights".data, "/debug/locations".data, "/debug/db".data]

/-- First index at which `pat` occurs as a substring (JS
`String.prototype.indexOf`). -/
def findSub (pat : List Char) : List Char → Option Nat
  | [] => if pat = [] then some 0 else none
  | c :: rest =>
      if pat.isPrefixOf (c :: rest) then some 0
      else (findSub pat rest).map (· + 1)

/-- The fleet-path computation of the forwarding branch: strip the first
matching API suffix; then split at the first `/inventory/` occurrence if
any; then strip a trailing `/ws`; default an empty result to `/`. -/
def deriveFleetPath (tenantPath : List Char) : List Char :=
  let stripped :=
    match apiEndpoints.find? (fun e => e.isSuffixOf tenantPath) with
    | some e => tenantPath.take (tenantPath.length - e.length)
    | none => tenantPath
  let afterInv :=
    match findSub "/inventory/".data tenantPath with
    | some i => if tenantPath.take i = [] then "/".data else tenantPath.take i
    | none => stripped
  let afterWs :=
    if "/ws".data.isSuffixOf tenantPath then tenantPath.take (tenantPath.length - 3)
    else afterInv
  if afterWs = [] then "/".data else afterWs

/-- The owner key `tenantId:fleetPath` the router passes to
`idFromName`, as a function of the `host` header and the URL path. -/
def routeKey (host path : List Char) : List Char :=
  let tp := deriveTenant host path
  finalTenant tp.1 ++ ':' :: deriveFleetPath tp.2

/-! ## Lemmas about the inventory map -/

theorem Inventory.get_setItem_self (inv : Inventory) (sku : String) (item : InventoryItem) :
    (inv.setItem sku item).get sku = some item := by
  induction inv with
  | nil => simp [Inventory.setItem, Inventory.get]
  | cons p rest ih =>
      obtain ⟨k, v⟩ := p
      by_cases h : k = sku <;> simp [Inventory.setItem, Inventory.get, h, ih]

theorem Inventory.mem_setItem {inv : Inventory} {sku : String} {item : InventoryItem}
    {p : String × InventoryItem} (hp : p ∈ inv.setItem sku item) :
    p ∈ inv ∨ p = (sku, item) := by
  induction inv with
  | nil => simpa [Inventory.setItem] using hp
  | cons q rest ih =>
      obtain ⟨k, v⟩ := q
      by_cases h : k = sku
      · subst h
        simp only [Inventory.setItem, if_pos rfl] at hp
        rcases List.mem_cons.mp hp with hp1 | hp1
        · exact Or.inr hp1
        · exact Or.inl (List.mem_cons_of_mem _ hp1)
      · simp only [Inventory.setItem, if_neg h] at hp
        rcases List.mem_cons.mp hp with hp1 | hp1
        · exact Or.inl (by simp [hp1])
        · rcases ih hp1 with h' | h'
          · exact Or.inl (List.mem_cons_of_mem _ h')
          · exact Or.inr h'

theorem Inventory.get_mem {inv : Inventory} {sku : String} {item : InventoryItem}
    (h : inv.get sku = some item) : (sku, item) ∈ inv := by
  induction inv with
  | nil => simp [Inventory.get] at h
  | cons q rest ih =>
      obtain ⟨k, v⟩ := q
      by_cases hk : k = sku
      · subst hk
        obtain rfl : v = item := by simpa [Inventory.get] using h
        exact List.mem_cons_self _ _
      · simp only [Inventory.get, if_neg hk] at h
        exact List.mem_cons_of_mem _ (ih h)

/-- One stock update with a non-negative quantity keeps every stock
level non-negative. -/
theorem processStockUpdate_nonneg {u : InventoryUpdate} {loc now : String}
    {inv : Inventory} {txs : List Transaction}
    (hq : 0 ≤ u.quantity) (hnn : InvNonneg inv) :
    InvNonneg (processStockUpdate u loc now inv txs).inventory := by
  intro p hp
  simp only [processStockUpdate] at hp
  rcases Inventory.mem_setItem hp with h | h
  · exact hnn p h
  · subst h
    simp only
    cases hg : inv.get u.sku with
    | some it =>
        have hmem := Inventory.get_mem hg
        have hit : 0 ≤ it.currentStock := hnn _ hmem
        simp only [hg]
        cases u.operation <;> simp <;> omega
    | none =>
        simp only [hg]
        cases u.operation <;> simp <;> omega

/-- The inventory reached by a fold over stock updates depends only on
the starting inventory and transactions, not the carried broadcasts. -/
theorem processSeq_aux_broadcasts (updates : List InventoryUpdate) (loc now : String)
    (inv : Inventory) (txs : List Transaction) (b b' : List Frame) :
    (updates.foldl
      (fun r u => processStockUpdate u loc now r.inventory r.transactions)
      ⟨inv, txs, b⟩).inventory =
    (updates.foldl
      (fun r u => processStockUpdate u loc now r.inventory r.transactions)
      ⟨inv, txs, b'⟩).inventory := by
  induction updates generalizing inv txs b b' with
  | nil => rfl
  | cons u us ih => exact ih _ _ _ _

/-- Unfolding one step of `processSeq` at the inventory component. -/
theorem processSeq_cons_inventory (u : InventoryUpdate) (us : List InventoryUpdate)
    (loc now : String) (inv : Inventory) (txs : List Transaction) :
    (processSeq (u :: us) loc now inv txs).inventory =
    (processSeq us loc now (processStockUpdate u loc now inv txs).inventory
      (processStockUpdate u loc now inv txs).transactions).inventory := by
  simp only [processSeq, List.foldl_cons]
  exact processSeq_aux_broadcasts us loc now
    (processStockUpdate u loc now inv txs).inventory
    (processStockUpdate u loc now inv txs).transactions
    (processStockUpdate u loc now inv txs).broadcasts []

/-- No sequence of stock updates with non-negative quantities drives any
stock level negative. -/
theorem processSeq_nonneg {updates : List InventoryUpdate} {loc now : String}
    {inv : Inventory} {txs : List Transaction}
    (hq : ∀ u ∈ updates, 0 ≤ u.quantity) (hnn : InvNonneg inv) :
    InvNonneg (processSeq updates loc now inv txs).inventory := by
  induction updates generalizing inv txs with
  | nil => simpa [processSeq] using hnn
  | cons u us ih =>
      rw [processSeq_cons_inventory]
      exact ih (fun v hv => hq v (List.mem_cons_of_mem _ hv))
        (processStockUpdate_nonneg (hq u (List.mem_cons_self _ _)) hnn)

/-! ## Supporting lemmas for the stock-update theorems -/

theorem processStockUpdate_transactions (u : InventoryUpdate) (loc now : String)
    (inv : Inventory) (txs : List Transaction) :
    (processStockUpdate u loc now inv txs).transactions =
      txs ++ [⟨u.sku, u.operation, u.quantity, loc, now⟩] := rfl

theorem stockOf_processStockUpdate_set {u : InventoryUpdate} {loc now : String}
    {inv : Inventory} {txs : List Transaction} (hop : u.operation = .set) :
    stockOf (processStockUpdate u loc now inv txs).inventory u.sku = u.quantity := by
  simp only [processStockUpdate, stockOf, hop]
  rw [Inventory.get_setItem_self]

/-! ## Claim theorems -/

/-- Claim C1: a stock decrement of quantity `q` against an item with
current stock `s` leaves `currentStock = max 0 (s - q)`, and no sequence
of `set`/`increment`/`decrement` updates with non-negative quantities
ever produces a negative `currentStock`. -/
theorem stock_decrement_clamp_and_nonneg :
    (∀ (u : InventoryUpdate) (loc now : String) (inv : Inventory)
        (txs : List Transaction) (item : InventoryItem),
        u.operation = .decrement → inv.get u.sku = some item →
        (processStockUpdate u loc now inv txs).inventory.get u.sku =
          some { item with currentStock := max 0 (item.currentStock - u.quantity),
                           lastUpdated := now }) ∧
    (∀ (updates : List InventoryUpdate) (loc now : String) (inv : Inventory)
        (txs : List Transaction),
        (∀ u ∈ updates, 0 ≤ u.quantity) → InvNonneg inv →
        InvNonneg (processSeq updates loc now inv txs).inventory) := by
  constructor
  · intro u loc now inv txs item hop hg
    simp only [processStockUpdate, hop, hg]
    rw [Inventory.get_setItem_self]
  · intro updates loc now inv txs hq hnn
    exact processSeq_nonneg hq hnn

/-- Witness for C1 at concrete inputs: decrementing 7 from stock 5
clamps to 0, and a concrete update sequence keeps stocks non-negative. -/
theorem stock_decrement_clamp_and_nonneg_witness :
    ((processStockUpdate ⟨"S", 7, .decrement⟩ "/w" "t1"
        [("S", ⟨"S", "P", 5, 10, "t0"⟩)] []).inventory.get "S" =
      some ⟨"S", "P", max 0 ((5 : Int) - 7), 10, "t1"⟩) ∧
    InvNonneg (processSeq [⟨"S", 3, .set⟩, ⟨"S", 5, .decrement⟩] "/w" "t1" [] []).inventory :=
  ⟨stock_decrement_clamp_and_nonneg.1 ⟨"S", 7, .decrement⟩ "/w" "t1"
      [("S", ⟨"S", "P", 5, 10, "t0"⟩)] [] ⟨"S", "P", 5, 10, "t0"⟩ rfl (by decide),
   stock_decrement_clamp_and_nonneg.2 [⟨"S", 3, .set⟩, ⟨"S", 5, .decrement⟩] "/w" "t1" [] []
      (by decide) (by intro p hp; simp at hp)⟩

/-- Claim C8: two consecutive `set` updates with the same SKU and
quantity leave the same `currentStock` as one such update, and the pair
appends exactly two `inventory_transactions` rows. -/
theorem set_idempotent (u : InventoryUpdate) (loc now1 now2 : String)
    (inv : Inventory) (txs : List Transaction) (hop : u.operation = .set) :
    stockOf (processStockUpdate u loc now2
        (processStockUpdate u loc now1 inv txs).inventory
        (processStockUpdate u loc now1 inv txs).transactions).inventory u.sku =
      stockOf (processStockUpdate u loc now1 inv txs).inventory u.sku ∧
    stockOf (processStockUpdate u loc now1 inv txs).inventory u.sku = u.quantity ∧
    (processStockUpdate u loc now2
        (processStockUpdate u loc now1 inv txs).inventory
        (processStockUpdate u loc now1 inv txs).transactions).transactions.length =
      txs.length + 2 := by
  refine ⟨?_, ?_, ?_⟩
  · rw [stockOf_processStockUpdate_set hop, stockOf_processStockUpdate_set hop]
  · exact stockOf_processStockUpdate_set hop
  · rw [processStockUpdate_transactions, processStockUpdate_transactions]
    simp

/-- Witness for C8: two `set 5` updates on the same SKU. -/
theorem set_idempotent_witness :
    stockOf (processStockUpdate ⟨"S", 5, .set⟩ "/w" "t2"
        (processStockUpdate ⟨"S", 5, .set⟩ "/w" "t1" [] []).inventory
        (processStockUpdate ⟨"S", 5, .set⟩ "/w" "t1" [] []).transactions).inventory "S" =
      stockOf (processStockUpdate ⟨"S", 5, .set⟩ "/w" "t1" [] []).inventory "S" ∧
    stockOf (processStockUpdate ⟨"S", 5, .set⟩ "/w" "t1" [] []).inventory "S" = 5 ∧
    (processStockUpdate ⟨"S", 5, .set⟩ "/w" "t2"
        (processStockUpdate ⟨"S", 5, .set⟩ "/w" "t1" [] []).inventory
        (processStockUpdate ⟨"S", 5, .set⟩ "/w" "t1" [] []).transactions).transactions.length =
      ([] : List Transaction).length + 2 :=
  set_idempotent ⟨"S", 5, .set⟩ "/w" "t1" "t2" [] [] rfl

/-- Claim C10: a stock update for a SKU absent from the inventory map
creates a default item (name `Product <sku>`, stock 0, threshold 10) and
applies the operation to it; in particular a decrement of an unknown SKU
yields `currentStock = 0` and broadcasts a `lowStockAlert` frame, since
`0 ≤ 10`. -/
theorem unknown_sku_defaults :
    (∀ (u : InventoryUpdate) (loc now : String) (inv : Inventory)
        (txs : List Transaction), inv.get u.sku = none →
        (processStockUpdate u loc now inv txs).inventory.get u.sku =
          some { sku := u.sku, name := "Product " ++ u.sku,
                 currentStock :=
                   (match u.operation with
                    | .set => u.quantity
                    | .increment => 0 + u.quantity
                    | .decrement => max 0 (0 - u.quantity)),
                 lowStockThreshold := 10, lastUpdated := now }) ∧
    (∀ (u : InventoryUpdate) (loc now : String) (inv : Inventory)
        (txs : List Transaction), inv.get u.sku = none →
        u.operation = .decrement → 0 ≤ u.quantity →
        (processStockUpdate u loc now inv txs).inventory.get u.sku =
          some ⟨u.sku, "Product " ++ u.sku, 0, 10, now⟩ ∧
        Frame.lowStockAlert u.sku 0 10 loc ∈
          (processStockUpdate u loc now inv txs).broadcasts) := by
  constructor
  · intro u loc now inv txs hg
    simp only [processStockUpdate, hg]
    rw [Inventory.get_setItem_self]
  · intro u loc now inv txs hg hop hq
    have hmax : max 0 (0 - u.quantity) = 0 := by omega
    constructor
    · simp only [processStockUpdate, hg, hop]
      rw [Inventory.get_setItem_self, hmax]
    · simp only [processStockUpdate, hg, hop, hmax]
      simp

/-- Witness for C10: a decrement of 3 on an unknown SKU in an empty
inventory. -/
theorem unknown_sku_defaults_witness :
    (processStockUpdate ⟨"NEW", 3, .decrement⟩ "/w" "t1" [] []).inventory.get "NEW" =
      some ⟨"NEW", "Product " ++ "NEW", 0, 10, "t1"⟩ ∧
    Frame.lowStockAlert "NEW" 0 10 "/w" ∈
      (processStockUpdate ⟨"NEW", 3, .decrement⟩ "/w" "t1" [] []).broadcasts :=
  unknown_sku_defaults.2 ⟨"NEW", 3, .decrement⟩ "/w" "t1" [] [] rfl rfl (by decide)

/-- Claim C4: a create-child call whose trimmed segment is already a
member of the children set fails with `AGENT_EXISTS` (409), surfaced as
an error frame, and leaves the agent state and store exactly as before.
(The validity hypothesis holds for every member, since segments enter
the set only after passing `AgentNameSchema`.) -/
theorem create_child_collision_unchanged (path name : String) (st : FleetState)
    (store : Store) (hvalid : validAgentName (jsTrim name) = true)
    (hmem : jsTrim name ∈ st.agents) :
    createAgent path name st store =
      ⟨st, store, [.errorFrame ("Agent \"" ++ jsTrim name ++ "\" already exists")],
        some ("AGENT_EXISTS", 409)⟩ := by
  simp [createAgent, hvalid, hmem]

/-- Witness for C4: creating `"a"` when it is already a child. -/
theorem create_child_collision_unchanged_witness :
    createAgent "/" "a" { initialState with agents := ["a"] } emptyStore =
      ⟨{ initialState with agents := ["a"] }, emptyStore,
        [.errorFrame ("Agent \"" ++ jsTrim "a" ++ "\" already exists")],
        some ("AGENT_EXISTS", 409)⟩ :=
  create_child_collision_unchanged "/" "a" { initialState with agents := ["a"] }
    emptyStore (by decide) (by decide)

/-- Claim C5: deleting an existing child whose cascading
`delete-subtree` RPC fails still removes the segment from the local
children set, persists the updated state, and broadcasts a system notice
about the partial cascade instead of an error frame. -/
theorem delete_child_cascade_failure (path name : String) (st : FleetState)
    (store : Store) (hmem : name ∈ st.agents) :
    (deleteAgent path name true st store).state =
      { st with agents := st.agents.erase name } ∧
    (deleteAgent path name true st store).store =
      saveState path { st with agents := st.agents.erase name } store ∧
    Frame.message "system" ("Deleted " ++ name ++ " (cascade may have failed)") ∈
      (deleteAgent path name true st store).frames ∧
    (∀ m, Frame.errorFrame m ∉ (deleteAgent path name true st store).frames) := by
  have hnot : ¬ name ∉ st.agents := fun h => h hmem
  have hred : deleteAgent path name true st store =
      ⟨{ st with agents := st.agents.erase name },
        saveState path { st with agents := st.agents.erase name } store,
        [.message "system" ("Deleted " ++ name ++ " (cascade may have failed)"),
         .state st.counter (st.agents.erase name)], none⟩ := by
    unfold deleteAgent
    rw [if_neg hnot]
    rfl
  refine ⟨by rw [hred], by rw [hred],
    by rw [hred]; exact List.mem_cons_self _ _, ?_⟩
  intro m hm
  rw [hred] at hm
  simp at hm

/-- Witness for C5: deleting child `"a"` with a failing cascade RPC. -/
theorem delete_child_cascade_failure_witness :
    (deleteAgent "/" "a" true { initialState with agents := ["a"] } emptyStore).state =
      { { initialState with agents := ["a"] } with agents := (["a"] : List String).erase "a" } ∧
    (deleteAgent "/" "a" true { initialState with agents := ["a"] } emptyStore).store =
      saveState "/"
        { { initialState with agents := ["a"] } with agents := (["a"] : List String).erase "a" }
        emptyStore ∧
    Frame.message "system" ("Deleted " ++ "a" ++ " (cascade may have failed)") ∈
      (deleteAgent "/" "a" true { initialState with agents := ["a"] } emptyStore).frames ∧
    (∀ m, Frame.errorFrame m ∉
      (deleteAgent "/" "a" true { initialState with agents := ["a"] } emptyStore).frames) :=
  delete_child_cascade_failure "/" "a" { initialState with agents := ["a"] } emptyStore
    (by decide)

/-! ## Chat statistics lemmas -/

theorem statsInv_recomputeRate {s : ChatStats}
    (h : s.successfulActions ≤ s.actionsExecuted) : statsInv (recomputeRate s) := by
  refine ⟨h, rfl⟩

theorem statsInv_runChatEvent {s : ChatStats} (e : ChatEvent) (h : statsInv s) :
    statsInv (runChatEvent e s) := by
  cases e with
  | message => exact statsInv_recomputeRate h.1
  | actions outcomes =>
      induction outcomes generalizing s with
      | nil => exact h
      | cons ok rest ih =>
          simp only [runChatEvent, List.foldl_cons]
          have hstep :
              statsInv (if ok then updateChatStats .success (updateChatStats .action s)
                        else updateChatStats .failure (updateChatStats .action s)) := by
            cases ok
            · exact statsInv_recomputeRate (Nat.le_succ_of_le h.1)
            · exact statsInv_recomputeRate (Nat.succ_le_succ h.1)
          simpa only [runChatEvent] using ih hstep

theorem statsInv_foldl (evs : List ChatEvent) (s : ChatStats) (h : statsInv s) :
    statsInv (evs.foldl (fun s e => runChatEvent e s) s) := by
  induction evs generalizing s with
  | nil => exact h
  | cons e rest ih => exact ih _ (statsInv_runChatEvent e h)

theorem statsInv_runChat (evs : List ChatEvent) : statsInv (runChat evs) :=
  statsInv_foldl evs ⟨0, 0, 0, 0⟩ ⟨Nat.le_refl 0, by simp⟩

/-- Claim C3: in every chat-stats state the code can reach, the stored
`successRate` is `successfulActions / actionsExecuted × 100` when
`actionsExecuted > 0` and `0` otherwise, and it always lies between 0
and 100. -/
theorem chat_stats_invariant (s : ChatStats) (h : ChatReachable s) :
    s.successRate =
      (if 0 < s.actionsExecuted then
        (s.successfulActions : ℚ) / (s.actionsExecuted : ℚ) * 100
      else 0) ∧
    0 ≤ s.successRate ∧ s.successRate ≤ 100 := by
  obtain ⟨evs, rfl⟩ := h
  obtain ⟨hle, hrate⟩ := statsInv_runChat evs
  refine ⟨hrate, ?_, ?_⟩
  · rw [hrate]
    split
    · positivity
    · exact le_refl 0
  · rw [hrate]
    split
    · rename_i hpos
      have hden : (0 : ℚ) < ((runChat evs).actionsExecuted : ℚ) := by
        exact_mod_cast hpos
      have hdiv : ((runChat evs).successfulActions : ℚ) /
          ((runChat evs).actionsExecuted : ℚ) ≤ 1 := by
        rw [div_le_one hden]
        exact_mod_cast hle
      calc ((runChat evs).successfulActions : ℚ) /
            ((runChat evs).actionsExecuted : ℚ) * 100
          ≤ 1 * 100 := by
            exact mul_le_mul_of_nonneg_right hdiv (by norm_num)
        _ = 100 := by norm_num
    · norm_num

/-- Witness for C3: the state after one chat message and one successful
action. -/
theorem chat_stats_invariant_witness :
    (runChat [.message, .actions [true]]).successRate =
      (if 0 < (runChat [.message, .actions [true]]).actionsExecuted then
        ((runChat [.message, .actions [true]]).successfulActions : ℚ) /
          ((runChat [.message, .actions [true]]).actionsExecuted : ℚ) * 100
      else 0) ∧
    0 ≤ (runChat [.message, .actions [true]]).successRate ∧
    (runChat [.message, .actions [true]]).successRate ≤ 100 :=
  chat_stats_invariant (runChat [.message, .actions [true]])
    ⟨[.message, .actions [true]], rfl⟩

/-! ## Persistence lemmas (saveState / loadStateFromStorage) -/

theorem lookupFleetRow_upsert (rows : List (String × FleetRow)) (id : String)
    (row : FleetRow) : lookupFleetRow (upsertFleetRow rows id row) id = some row := by
  induction rows with
  | nil => simp [upsertFleetRow, lookupFleetRow]
  | cons q rest ih =>
      obtain ⟨k, v⟩ := q
      by_cases h : k = id <;> simp [upsertFleetRow, lookupFleetRow, h, ih]

theorem upsertInvRow_of_fresh {rows : List InvRow} {r : InvRow}
    (h : ∀ r' ∈ rows, r'.sku ≠ r.sku) : upsertInvRow rows r = rows ++ [r] := by
  induction rows with
  | nil => rfl
  | cons q rest ih =>
      have hq : q.sku ≠ r.sku := h q (List.mem_cons_self _ _)
      simp only [upsertInvRow, if_neg hq, List.cons_append, List.cons.injEq, true_and]
      exact ih (fun r' hr' => h r' (List.mem_cons_of_mem _ hr'))

theorem foldl_upsertInvRow (inv : Inventory) (path : String) (rows : List InvRow)
    (hkeys : (inv.map Prod.fst).Nodup)
    (hwf : ∀ p ∈ inv, p.2.sku = p.1)
    (hfresh : ∀ r ∈ rows, ∀ p ∈ inv, r.sku ≠ p.1) :
    inv.foldl (fun rows p => upsertInvRow rows (toInvRow path p)) rows =
      rows ++ inv.map (toInvRow path) := by
  induction inv generalizing rows with
  | nil => simp
  | cons p tail ih =>
      have hp1 : (toInvRow path p).sku = p.1 := hwf p (List.mem_cons_self _ _)
      have hstep : upsertInvRow rows (toInvRow path p) = rows ++ [toInvRow path p] :=
        upsertInvRow_of_fresh (fun r' hr' => by
          rw [hp1]; exact hfresh r' hr' p (List.mem_cons_self _ _))
      have hkeys' : (tail.map Prod.fst).Nodup := by
        simpa using (List.nodup_cons.mp (by simpa using hkeys)).2
      have hnotmem : p.1 ∉ tail.map Prod.fst :=
        (List.nodup_cons.mp (by simpa using hkeys)).1
      have hfresh' : ∀ r ∈ rows ++ [toInvRow path p], ∀ q ∈ tail, r.sku ≠ q.1 := by
        intro r hr q hq
        rcases List.mem_append.mp hr with hr | hr
        · exact hfresh r hr q (List.mem_cons_of_mem _ hq)
        · have : r = toInvRow path p := by simpa using hr
          subst this
          rw [hp1]
          intro hcon
          exact hnotmem (hcon ▸ List.mem_map_of_mem Prod.fst hq)
      have hwf' : ∀ q ∈ tail, q.2.sku = q.1 :=
        fun q hq => hwf q (List.mem_cons_of_mem _ hq)
      simp only [List.foldl_cons, hstep]
      rw [ih (rows ++ [toInvRow path p]) hkeys' hwf' hfresh']
      simp

theorem setItem_of_fresh {inv : Inventory} {sku : String} {item : InventoryItem}
    (h : ∀ q ∈ inv, q.1 ≠ sku) : inv.setItem sku item = inv ++ [(sku, item)] := by
  induction inv with
  | nil => rfl
  | cons q rest ih =>
      have hq : q.1 ≠ sku := h q (List.mem_cons_self _ _)
      obtain ⟨k, v⟩ := q
      simp only [Inventory.setItem, if_neg hq, List.cons_append, List.cons.injEq, true_and]
      exact ih (fun q' hq' => h q' (List.mem_cons_of_mem _ hq'))

theorem foldl_setItem (rows : List InvRow) (loadTime : String) (acc : Inventory)
    (hnodup : (rows.map InvRow.sku).Nodup)
    (hacc : ∀ q ∈ acc, ∀ r ∈ rows, q.1 ≠ r.sku) :
    rows.foldl (fun inv r => inv.setItem r.sku (loadedItem loadTime r)) acc =
      acc ++ rows.map (fun r => (r.sku, loadedItem loadTime r)) := by
  induction rows generalizing acc with
  | nil => simp
  | cons r tail ih =>
      have hstep : acc.setItem r.sku (loadedItem loadTime r) =
          acc ++ [(r.sku, loadedItem loadTime r)] :=
        setItem_of_fresh (fun q hq => hacc q hq r (List.mem_cons_self _ _))
      have hnodup' : (tail.map InvRow.sku).Nodup := by
        simpa using (List.nodup_cons.mp (by simpa using hnodup)).2
      have hnotmem : r.sku ∉ tail.map InvRow.sku :=
        (List.nodup_cons.mp (by simpa using hnodup)).1
      have hacc' : ∀ q ∈ acc ++ [(r.sku, loadedItem loadTime r)], ∀ r' ∈ tail,
          q.1 ≠ r'.sku := by
        intro q hq r' hr'
        rcases List.mem_append.mp hq with hq | hq
        · exact hacc q hq r' (List.mem_cons_of_mem _ hr')
        · have hq2 : q = (r.sku, loadedItem loadTime r) := by simpa using hq
          subst hq2
          intro hcon
          exact hnotmem ((show r.sku = r'.sku from hcon) ▸
            List.mem_map_of_mem InvRow.sku hr')
      simp only [List.foldl_cons, hstep]
      rw [ih (acc ++ [(r.sku, loadedItem loadTime r)]) hnodup' hacc']
      simp

/-- Saving an agent state and re-loading it at the same path in a fresh
instance: the counter, children and agent type come back verbatim; every
inventory item comes back with all its columns, but its `lastUpdated`
field is replaced by the load timestamp.  (The freshness hypotheses say
the store had no rows for this path or these SKUs — the situation of a
fresh location.) -/
theorem roundtrip_core (path loadTime : String) (st : FleetState) (store : Store)
    (hkeys : (st.inventory.map Prod.fst).Nodup)
    (hwf : ∀ p ∈ st.inventory, p.2.sku = p.1)
    (hloc : ∀ r ∈ store.inventoryRows, r.location ≠ path)
    (hfresh : ∀ r ∈ store.inventoryRows, ∀ p ∈ st.inventory, r.sku ≠ p.1) :
    loadStateFromStorage path (saveState path st store) loadTime =
      { initialState with
        counter := st.counter, agents := st.agents, agentType := st.agentType,
        inventory :=
          st.inventory.map (fun p => (p.1, { p.2 with lastUpdated := loadTime })) } := by
  have hrows : (saveState path st store).inventoryRows =
      store.inventoryRows ++ st.inventory.map (toInvRow path) :=
    foldl_upsertInvRow st.inventory path store.inventoryRows hkeys hwf hfresh
  have hfilter : ((saveState path st store).inventoryRows).filter
      (fun r => r.location = path) = st.inventory.map (toInvRow path) := by
    rw [hrows, List.filter_append]
    rw [List.filter_eq_nil_iff.mpr (by
      intro r hr
      simpa using hloc r hr)]
    rw [List.filter_eq_self.mpr (by
      intro r hr
      rcases List.mem_map.mp hr with ⟨p, _, rfl⟩
      simp [toInvRow])]
    simp
  have hmapsku : (st.inventory.map (toInvRow path)).map InvRow.sku =
      st.inventory.map Prod.fst := by
    rw [List.map_map]
    exact List.map_eq_map_iff.mpr (fun p hp => hwf p hp)
  have hnodup2 : ((st.inventory.map (toInvRow path)).map InvRow.sku).Nodup := by
    rw [hmapsku]; exact hkeys
  have hfold : (st.inventory.map (toInvRow path)).foldl
      (fun (inv : Inventory) r => inv.setItem r.sku (loadedItem loadTime r)) [] =
      (st.inventory.map (toInvRow path)).map
        (fun r => (r.sku, loadedItem loadTime r)) := by
    rw [foldl_setItem _ _ _ hnodup2 (by intro q hq; simp at hq)]
    simp
  have hlast : (st.inventory.map (toInvRow path)).map
      (fun r => (r.sku, loadedItem loadTime r)) =
      st.inventory.map (fun p => (p.1, { p.2 with lastUpdated := loadTime })) := by
    rw [List.map_map]
    refine List.map_eq_map_iff.mpr (fun p hp => ?_)
    have := hwf p hp
    simp [toInvRow, loadedItem, this]
  have hrow : lookupFleetRow (saveState path st store).fleetRows path =
      some ⟨st.counter, st.agents, st.agentType⟩ := by
    unfold saveState
    exact lookupFleetRow_upsert store.fleetRows path _
  unfold loadStateFromStorage
  rw [hrow]
  dsimp only
  rw [hfilter, hfold, hlast]


/-- Claim C2, counterexample: saving a state holding one inventory item
with `lastUpdated = "t1"` and re-loading it at load time `"t2"` does not
reproduce the in-memory inventory — the loaded item's `lastUpdated` is
the load time, not the saved value, so the round-trip is not the
identity on every item field. -/
theorem save_load_roundtrip_counterexample :
    (loadStateFromStorage "/p"
        (saveState "/p"
          { initialState with inventory := [("X", ⟨"X", "Product X", 5, 10, "t1"⟩)] }
          emptyStore)
        "t2").inventory ≠
      [("X", ⟨"X", "Product X", 5, 10, "t1"⟩)] := by
  decide

/-- Claim C2 (amended): saving and re-loading into a fresh instance at
the same path reproduces the counter, the children set, the agent type,
and every inventory item in all its columns — while each loaded item's
`lastUpdated` is the load timestamp, since that field is not persisted. -/
theorem save_load_roundtrip_amended (path loadTime : String) (st : FleetState)
    (store : Store)
    (hkeys : (st.inventory.map Prod.fst).Nodup)
    (hwf : ∀ p ∈ st.inventory, p.2.sku = p.1)
    (hloc : ∀ r ∈ store.inventoryRows, r.location ≠ path)
    (hfresh : ∀ r ∈ store.inventoryRows, ∀ p ∈ st.inventory, r.sku ≠ p.1) :
    (loadStateFromStorage path (saveState path st store) loadTime).counter = st.counter ∧
    (loadStateFromStorage path (saveState path st store) loadTime).agents = st.agents ∧
    (loadStateFromStorage path (saveState path st store) loadTime).agentType = st.agentType ∧
    (loadStateFromStorage path (saveState path st store) loadTime).inventory =
      st.inventory.map (fun p => (p.1, { p.2 with lastUpdated := loadTime })) := by
  rw [roundtrip_core path loadTime st store hkeys hwf hloc hfresh]
  exact ⟨rfl, rfl, rfl, rfl⟩

/-- Witness for the amended C2 at a concrete one-item state. -/
theorem save_load_roundtrip_amended_witness :
    (loadStateFromStorage "/p"
        (saveState "/p"
          { initialState with
            counter := 2, agents := ["a"],
            inventory := [("X", ⟨"X", "Product X", 5, 10, "t1"⟩)] }
          emptyStore) "t2").counter =
      ({ initialState with
          counter := 2, agents := ["a"],
          inventory := [("X", ⟨"X", "Product X", 5, 10, "t1"⟩)] } : FleetState).counter ∧
    (loadStateFromStorage "/p"
        (saveState "/p"
          { initialState with
            counter := 2, agents := ["a"],
            inventory := [("X", ⟨"X", "Product X", 5, 10, "t1"⟩)] }
          emptyStore) "t2").agents =
      ({ initialState with
          counter := 2, agents := ["a"],
          inventory := [("X", ⟨"X", "Product X", 5, 10, "t1"⟩)] } : FleetState).agents ∧
    (loadStateFromStorage "/p"
        (saveState "/p"
          { initialState with
            counter := 2, agents := ["a"],
            inventory := [("X", ⟨"X", "Product X", 5, 10, "t1"⟩)] }
          emptyStore) "t2").agentType =
      ({ initialState with
          counter := 2, agents := ["a"],
          inventory := [("X", ⟨"X", "Product X", 5, 10, "t1"⟩)] } : FleetState).agentType ∧
    (loadStateFromStorage "/p"
        (saveState "/p"
          { initialState with
            counter := 2, agents := ["a"],
            inventory := [("X", ⟨"X", "Product X", 5, 10, "t1"⟩)] }
          emptyStore) "t2").inventory =
      ({ initialState with
          counter := 2, agents := ["a"],
          inventory := [("X", ⟨"X", "Product X", 5, 10, "t1"⟩)] } : FleetState).inventory.map
        (fun p => (p.1, { p.2 with lastUpdated := "t2" })) :=
  save_load_roundtrip_amended "/p" "t2"
    { initialState with
      counter := 2, agents := ["a"],
      inventory := [("X", ⟨"X", "Product X", 5, 10, "t1"⟩)] }
    emptyStore (by decide) (by decide) (by decide) (by decide)

/-- Claim C6, counterexample: after `handleDeleteSubtree` on an agent
holding one inventory item, a fresh instance resumed from the store at
the same path still loads that item — the inventory is neither cleared
in memory nor removed from `inventory_items`, so the resumed state is
not empty. -/
theorem delete_subtree_counterexample :
    (loadStateFromStorage "/p"
        (handleDeleteSubtree "/p"
          { initialState with
            counter := 3, agents := ["a"],
            inventory := [("X", ⟨"X", "Product X", 5, 10, "t1"⟩)] }
          emptyStore).2 "t2").inventory ≠ [] := by
  decide

/-- Claim C6 (amended): after `handleDeleteSubtree` the agent's own
children set is empty, its counter is 0 and its subscriptions are
closed, and a fresh instance resumed from the store at the same path has
no children and counter 0 — but it still holds the inventory items
(stamped with the load time), since `handleDeleteSubtree` does not clear
the inventory and `saveState` re-persists it. -/
theorem delete_subtree_amended (path loadTime : String) (st : FleetState) (store : Store)
    (hkeys : (st.inventory.map Prod.fst).Nodup)
    (hwf : ∀ p ∈ st.inventory, p.2.sku = p.1)
    (hloc : ∀ r ∈ store.inventoryRows, r.location ≠ path)
    (hfresh : ∀ r ∈ store.inventoryRows, ∀ p ∈ st.inventory, r.sku ≠ p.1) :
    (handleDeleteSubtree path st store).1.agents = [] ∧
    (handleDeleteSubtree path st store).1.counter = 0 ∧
    (handleDeleteSubtree path st store).1.websockets = [] ∧
    (loadStateFromStorage path (handleDeleteSubtree path st store).2 loadTime).agents = [] ∧
    (loadStateFromStorage path (handleDeleteSubtree path st store).2 loadTime).counter = 0 ∧
    (loadStateFromStorage path (handleDeleteSubtree path st store).2 loadTime).inventory =
      st.inventory.map (fun p => (p.1, { p.2 with lastUpdated := loadTime })) := by
  have hcore := roundtrip_core path loadTime
    { st with agents := [], counter := 0, messages := [] } store hkeys hwf hloc hfresh
  have hsnd : (handleDeleteSubtree path st store).2 =
      saveState path { st with agents := [], counter := 0, messages := [] } store := rfl
  refine ⟨rfl, rfl, rfl, ?_, ?_, ?_⟩ <;> rw [hsnd, hcore]

/-- Witness for the amended C6 at a concrete one-item state. -/
theorem delete_subtree_amended_witness :
    (handleDeleteSubtree "/p"
        { initialState with
          counter := 3, agents := ["a"],
          inventory := [("X", ⟨"X", "Product X", 5, 10, "t1"⟩)] }
        emptyStore).1.agents = [] ∧
    (handleDeleteSubtree "/p"
        { initialState with
          counter := 3, agents := ["a"],
          inventory := [("X", ⟨"X", "Product X", 5, 10, "t1"⟩)] }
        emptyStore).1.counter = 0 ∧
    (handleDeleteSubtree "/p"
        { initialState with
          counter := 3, agents := ["a"],
          inventory := [("X", ⟨"X", "Product X", 5, 10, "t1"⟩)] }
        emptyStore).1.websockets = [] ∧
    (loadStateFromStorage "/p"
        (handleDeleteSubtree "/p"
          { initialState with
            counter := 3, agents := ["a"],
            inventory := [("X", ⟨"X", "Product X", 5, 10, "t1"⟩)] }
          emptyStore).2 "t2").agents = [] ∧
    (loadStateFromStorage "/p"
        (handleDeleteSubtree "/p"
          { initialState with
            counter := 3, agents := ["a"],
            inventory := [("X", ⟨"X", "Product X", 5, 10, "t1"⟩)] }
          emptyStore).2 "t2").counter = 0 ∧
    (loadStateFromStorage "/p"
        (handleDeleteSubtree "/p"
          { initialState with
            counter := 3, agents := ["a"],
            inventory := [("X", ⟨"X", "Product X", 5, 10, "t1"⟩)] }
          emptyStore).2 "t2").inventory =
      ({ initialState with
          counter := 3, agents := ["a"],
          inventory := [("X", ⟨"X", "Product X", 5, 10, "t1"⟩)] } : FleetState).inventory.map
        (fun p => (p.1, { p.2 with lastUpdated := "t2" })) :=
  delete_subtree_amended "/p" "t2"
    { initialState with
      counter := 3, agents := ["a"],
      inventory := [("X", ⟨"X", "Product X", 5, 10, "t1"⟩)] }
    emptyStore (by decide) (by decide) (by decide) (by decide)

/-- Claim C7, counterexample: the name `a<TAB>b` is accepted by
create-child (the JS regex class `\s` admits any whitespace, not just
the space character), yet it does not match the claimed class
`[A-Za-z0-9 _-]` — so acceptance is not equivalent to the claimed
character class. -/
theorem agent_name_class_counterexample :
    (createAgent "/" "a\tb" initialState emptyStore).err = none ∧
    specAgentNameOk "a\tb" = false := by
  exact ⟨by decide, by decide⟩

/-- Claim C7 (amended): create-child accepts a name (not already a
member) exactly when the trimmed name passes `AgentNameSchema` — length
1..32 over alphanumerics, `\s` whitespace, underscore and dash; any name
failing the schema is rejected with `VALIDATION_ERROR` (400).  The
claimed boundary cases hold: 32 `a`s accepted, 33 rejected, `.` and `/`
rejected; but the class is wider than the spec's `[A-Za-z0-9 _-]`, since
`\s` also admits tab and other whitespace. -/
theorem agent_name_validation_amended :
    (∀ (path name : String) (st : FleetState) (store : Store),
        jsTrim name ∉ st.agents →
        ((createAgent path name st store).err = none ↔
          validAgentName (jsTrim name) = true)) ∧
    (∀ (path name : String) (st : FleetState) (store : Store),
        validAgentName (jsTrim name) = false →
        (createAgent path name st store).err = some ("VALIDATION_ERROR", 400)) ∧
    validAgentName ⟨List.replicate 32 'a'⟩ = true ∧
    validAgentName ⟨List.replicate 33 'a'⟩ = false ∧
    validAgentName "a.b" = false ∧
    validAgentName "a/b" = false ∧
    validAgentName "a\tb" = true := by
  refine ⟨?_, ?_, by decide, by decide, by decide, by decide, by decide⟩
  · intro path name st store hmem
    by_cases hv : validAgentName (jsTrim name) = true
    · simp [createAgent, hv, hmem]
    · have hv' : ¬ validAgentName (jsTrim name) := by simpa using hv
      simp [createAgent, hv']
  · intro path name st store hv
    simp [createAgent, hv]

/-- Witness for the amended C7: a fresh valid name is accepted, an
invalid one is rejected with `VALIDATION_ERROR`. -/
theorem agent_name_validation_amended_witness :
    ((createAgent "/" "store-ny" initialState emptyStore).err = none ↔
      validAgentName (jsTrim "store-ny") = true) ∧
    (createAgent "/" "a.b" initialState emptyStore).err = some ("VALIDATION_ERROR", 400) :=
  ⟨agent_name_validation_amended.1 "/" "store-ny" initialState emptyStore (by decide),
   agent_name_validation_amended.2.1 "/" "a.b" initialState emptyStore (by decide)⟩

/-! ## Router lemmas -/

theorem splitChar_ne_nil (sep : Char) (s : List Char) : splitChar sep s ≠ [] := by
  cases s with
  | nil => simp [splitChar]
  | cons c rest =>
      by_cases h : c = sep
      · simp [splitChar, h]
      · simp only [splitChar, if_neg h]
        cases hs : splitChar sep rest with
        | nil => simp
        | cons g gs => simp

theorem splitChar_append_sep (sep : Char) (s : List Char) :
    splitChar sep (s ++ [sep]) = splitChar sep s ++ [[]] := by
  induction s with
  | nil => simp [splitChar]
  | cons c rest ih =>
      by_cases h : c = sep
      · simp [splitChar, h, ih]
      · simp only [List.cons_append, splitChar, if_neg h]
        cases hs : splitChar sep rest with
        | nil => exact absurd hs (splitChar_ne_nil sep rest)
        | cons g gs =>
            rw [show rest.append [sep] = rest ++ [sep] from rfl, ih, hs]
            simp

theorem splitNE_append_sep (sep : Char) (s : List Char) :
    splitNE sep (s ++ [sep]) = splitNE sep s := by
  unfold splitNE
  rw [splitChar_append_sep, List.filter_append]
  simp

theorem isPrefixOf_append_right {l1 l2 : List Char} (l3 : List Char)
    (h : l1.isPrefixOf l2 = true) : l1.isPrefixOf (l2 ++ l3) = true := by
  rw [List.isPrefixOf_iff_prefix] at h ⊢
  exact h.trans (List.prefix_append l2 l3)

/-- Claim C9, counterexample: under the subdomain tenant-derivation
branch the raw URL path is used unnormalized, so `/a/b` and `/a/b/`
yield distinct owner keys (`t:/a/b` vs `t:/a/b/`) and route to different
agent instances. -/
theorem trailing_slash_counterexample :
    routeKey "t.example.com".data "/a/b".data ≠
      routeKey "t.example.com".data "/a/b/".data := by
  decide

/-- Claim C9 (amended): paths differing only in a trailing slash produce
the same owner key in the two tenant-derivation branches that rebuild
the path from `split('/').filter(Boolean)` — the `/tenant/<id>/...`
branch (with at least two segments) and the first-path-segment branch
(with at least one segment) — but not in the subdomain-host branch,
which keeps the raw path. -/
theorem trailing_slash_amended :
    (∀ host p : List Char, isSubdomainHost host = false →
        "/tenant/".data.isPrefixOf (p ++ ['/']) = false →
        1 ≤ (splitNE '/' p).length →
        routeKey host (p ++ ['/']) = routeKey host p) ∧
    (∀ host p : List Char, isSubdomainHost host = false →
        "/tenant/".data.isPrefixOf p = true →
        2 ≤ (splitNE '/' p).length →
        routeKey host (p ++ ['/']) = routeKey host p) := by
  constructor
  · intro host p hsub hpre hlen
    have hpre0 : "/tenant/".data.isPrefixOf p = false := by
      cases h : "/tenant/".data.isPrefixOf p
      · rfl
      · rw [isPrefixOf_append_right ['/'] h] at hpre
        exact absurd hpre (by simp)
    simp only [routeKey, deriveTenant, hsub, Bool.false_eq_true, if_false,
      hpre, hpre0]
    rw [splitNE_append_sep]
    rw [if_pos hlen, if_pos hlen]
  · intro host p hsub hpre hlen
    have hpre1 : "/tenant/".data.isPrefixOf (p ++ ['/']) = true :=
      isPrefixOf_append_right ['/'] hpre
    simp only [routeKey, deriveTenant, hsub, Bool.false_eq_true, if_false,
      hpre, hpre1, if_true]
    rw [splitNE_append_sep]
    rw [if_pos hlen, if_pos hlen]

/-- Witness for the amended C9: concrete trailing-slash pairs in the
first-segment branch and the `/tenant/` branch. -/
theorem trailing_slash_amended_witness :
    routeKey "example.com".data ("/a/b".data ++ ['/']) =
      routeKey "example.com".data "/a/b".data ∧
    routeKey "example.com".data ("/tenant/t/a".data ++ ['/']) =
      routeKey "example.com".data "/tenant/t/a".data :=
  ⟨trailing_slash_amended.1 "example.com".data "/a/b".data (by decide) (by decide)
      (by decide),
   trailing_slash_amended.2 "example.com".data "/tenant/t/a".data (by decide) (by decide)
      (by decide)⟩

end Fleet
